import Mathlib

/-!
# zahodi: listing extraction (`zillow.go`)

A shallow embedding of the extraction engine of `zillow.go`: the data model,
`getAttr`, `maybeParseEvent`, `NewListing`, the recursive walker inside
`Populate` and `Populate` itself, followed by theorems about them.

The JSON decoder (`encoding/json`), the date decoder (`iso8601`), the HTTP
client (`net/http`) and the tree parser (`golang.org/x/net/html`) are external
libraries.  They appear as the fields of `Decoders` and `Transport`, and every
general theorem holds for all of their possible behaviours.
-/

namespace Zahodi

/-! ## Data model -/

/-- The node kinds of `html.NodeType`. -/
inductive NodeType where
  | ErrorNode
  | TextNode
  | DocumentNode
  | ElementNode
  | CommentNode
  | DoctypeNode
  | RawNode
deriving DecidableEq, Repr

/-- An attribute of an element, `html.Attribute`. -/
structure Attribute where
  Namespace : String
  Key : String
  Val : String
deriving DecidableEq, Repr

/-- A node of a parsed document, `html.Node`.  The `FirstChild`/`NextSibling`
chain of the source is the list `children`, in sibling order. -/
inductive Node where
  | mk (Type_ : NodeType) (Data : String) (Attr : List Attribute) (children : List Node)

/-- The `Type` field of a node. -/
def Node.Type_ : Node → NodeType
  | .mk ty _ _ _ => ty

/-- The `Data` field of a node: the tag name of an element, the text of a text node. -/
def Node.Data : Node → String
  | .mk _ d _ _ => d

/-- The `Attr` field of a node. -/
def Node.Attr : Node → List Attribute
  | .mk _ _ a _ => a

/-- The children of a node, from `FirstChild` along `NextSibling`. -/
def Node.children : Node → List Node
  | .mk _ _ _ cs => cs

/-- The record `Price` of the source. -/
structure Price where
  Currency : String
  Amount : Int
deriving DecidableEq, Repr

/-- The record `Address` of the source. -/
structure Address where
  Value : String
  Street : String
  PostalCode : String
  Locality : String
  Region : String
deriving DecidableEq, Repr

/-- An instant, standing for `time.Time`: the seconds elapsed since the zero instant. -/
structure Time where
  sinceZero : Int
deriving DecidableEq, Repr

/-- The zero value of `time.Time`. -/
def Time.zero : Time := ⟨0⟩

/-- The record `Event` of the source. -/
structure Event where
  StartDate : Time
  EndDate : Time
  Name : String
deriving DecidableEq, Repr

/-- The record `Listing` of the source. -/
structure Listing where
  URL : String
  CanonicalURL : String
  Description : String
  Address : Address
  PhotoUrl : String
  Price : Price
  OpenHouses : List Event
deriving DecidableEq, Repr

/-- The record `ZillowObject` the JSON text is decoded into. -/
structure ZillowObject where
  Type_ : String
  StartDate : String
  EndDate : String
  Name : String
deriving DecidableEq, Repr

/-- The decoding libraries `maybeParseEvent` calls: `json.Valid`,
`json.Unmarshal` into a `ZillowObject`, and `iso8601.ParseString`. -/
structure Decoders where
  jsonValid : String → Bool
  jsonUnmarshal : String → Except String ZillowObject
  iso8601ParseString : String → Except String Time

/-! ## `getAttr`, `maybeParseEvent`, `NewListing` -/

/-- The loop of `getAttr`: the value of the first attribute whose key is `key`. -/
def getAttrLoop : List Attribute → String → String
  | [], _ => ""
  | a :: rest, key => if a.Key = key then a.Val else getAttrLoop rest key

/-- The function `getAttr` of the source. -/
def getAttr (node : Node) (key : String) : String :=
  if node.Type_ ≠ NodeType.ElementNode then ""
  else getAttrLoop node.Attr key

/-- The function `maybeParseEvent` of the source; `none` is the nil pointer. -/
def maybeParseEvent (dec : Decoders) (text : String) : Option Event :=
  if dec.jsonValid text = false then none
  else
    match dec.jsonUnmarshal text with
    | .error _ => none
    | .ok data =>
      if data.Type_ ≠ "Event" then none
      else
        let event : Event := { StartDate := Time.zero, EndDate := Time.zero, Name := data.Name }
        let event : Event :=
          match dec.iso8601ParseString data.StartDate with
          | .ok startDate => { event with StartDate := startDate }
          | .error _ => event
        let event : Event :=
          match dec.iso8601ParseString data.EndDate with
          | .ok endDate => { event with EndDate := endDate }
          | .error _ => event
        some event

/-- The function `NewListing` of the source. -/
def NewListing (url : String) : Listing :=
  { URL := url
    CanonicalURL := ""
    Description := ""
    Address := ⟨"", "", "", "", ""⟩
    PhotoUrl := ""
    Price := ⟨"", 0⟩
    OpenHouses := [] }

/-! ## The walker of `Populate` -/

/-- The `switch` on a `meta` element (lines 147-156): the first case whose
condition holds runs, and no other. -/
def metaSwitch (n : Node) (l : Listing) : Listing :=
  if getAttr n "name" = "description" then
    { l with Description := getAttr n "content" }
  else if getAttr n "property" = "og:image" then
    { l with PhotoUrl := getAttr n "content" }
  else if getAttr n "property" = "og:zillow_fb:address" then
    { l with Address := ⟨getAttr n "content", "", "", "", ""⟩ }
  else if getAttr n "name" = "canonical" then
    { l with CanonicalURL := getAttr n "content" }
  else l

/-- The loop over the children of a structured-data script (lines 161-170). -/
def scriptLoop (dec : Decoders) : List Node → Listing → Listing
  | [], l => l
  | c :: rest, l =>
    if c.Type_ ≠ NodeType.TextNode then scriptLoop dec rest l
    else
      match maybeParseEvent dec c.Data with
      | some event => scriptLoop dec rest { l with OpenHouses := l.OpenHouses ++ [event] }
      | none => scriptLoop dec rest l

mutual
/-- The closure `f` of `Populate` (lines 141-176), the record it mutates made explicit. -/
def f (dec : Decoders) : Node → Listing → Listing
  | .mk ty data attr children, l =>
    if ty ≠ NodeType.ElementNode then l
    else if data = "meta" then metaSwitch (.mk ty data attr children) l
    else
      let l1 :=
        if data = "script" ∧ getAttr (.mk ty data attr children) "type" = "application/ld+json" then
          scriptLoop dec children l
        else l
      fChildren dec children l1
/-- The loop `for c := n.FirstChild; c != nil; c = c.NextSibling { f(c) }`. -/
def fChildren (dec : Decoders) : List Node → Listing → Listing
  | [], l => l
  | c :: rest, l => fChildren dec rest (f dec c l)
end

/-- The walk at the end of `Populate` (lines 178-180): `f` on each child of the document. -/
def walk (dec : Decoders) (doc : Node) (l : Listing) : Listing :=
  fChildren dec doc.children l

mutual
/-- The nodes on which `f` is invoked when it is called on a node, in the order of
the invocations: `f` instrumented with a log. -/
def visits : Node → List Node
  | .mk ty data attr children =>
    if ty ≠ NodeType.ElementNode then [.mk ty data attr children]
    else if data = "meta" then [.mk ty data attr children]
    else .mk ty data attr children :: visitsChildren children
/-- The invocations of `f` made by the loop over a list of siblings. -/
def visitsChildren : List Node → List Node
  | [] => []
  | c :: rest => visits c ++ visitsChildren rest
end

/-- The invocations of `f` made by the walk over a document. -/
def visitsDoc (doc : Node) : List Node :=
  visitsChildren doc.children

/-! ## `Populate` -/

/-- The predicate `unicode.IsSpace`. -/
def isSpace (c : Char) : Bool :=
  let n := c.toNat
  n = 0x09 || n = 0x0A || n = 0x0B || n = 0x0C || n = 0x0D || n = 0x20 || n = 0x85 || n = 0xA0
    || n = 0x1680 || (0x2000 ≤ n && n ≤ 0x200A) || n = 0x2028 || n = 0x2029 || n = 0x202F
    || n = 0x205F || n = 0x3000

/-- The function `strings.TrimSpace`: leading and trailing white space removed. -/
def TrimSpace (s : String) : String :=
  String.mk ((s.data.dropWhile isSpace).reverse.dropWhile isSpace).reverse

/-- An outgoing request: method, URL and the headers added so far. -/
structure Request where
  Method : String
  URL : String
  Header : List (String × String)
deriving DecidableEq, Repr

/-- The call `req.Header.Add`. -/
def Request.headerAdd (req : Request) (key value : String) : Request :=
  { req with Header := req.Header ++ [(key, value)] }

/-- What `Populate` reads of an `http.Response`. -/
structure Response where
  StatusCode : Int
  Body : String
deriving DecidableEq, Repr

/-- The network and parsing libraries `Populate` calls: `http.NewRequest`,
`client.Do` and `html.Parse`. -/
structure Transport where
  NewRequest : String → String → Except String Request
  Do : Request → Except String Response
  Parse : String → Except String Node

/-- The constant `http.StatusOK`. -/
def StatusOK : Int := 200

/-- The errors `Populate` returns: its own two, and those the libraries hand back. -/
inductive PopulateError where
  | urlEmpty
  | newRequest (cause : String)
  | transport (cause : String)
  | status (expected got : Int)
  | parse (cause : String)
deriving DecidableEq, Repr

/-- The outcome of `Populate`: the record after the call, the error returned
(`none` is nil), and the requests handed to the transport. -/
structure PopulateResult where
  listing : Listing
  err : Option PopulateError
  sent : List Request

/-- The four `req.Header.Add` calls of `Populate` (lines 119-122). -/
def addBrowserHeaders (req : Request) : Request :=
  let req := req.headerAdd "accept"
    "text/html,application/xhtml+xml,application/xml;q=0.9,image/webp,image/apng,*/*;q=0.8"
  let req := req.headerAdd "accept-language" "en-US,en;q=0.8"
  let req := req.headerAdd "upgrade-insecure-requests" "1"
  req.headerAdd "user-agent"
    "Mozilla/5.0 (Windows NT 10.0; Win64; x64) AppleWebKit/537.36 (KHTML, like Gecko) Chrome/61.0.3163.100 Safari/537.36"

/-- The method `Populate` of the source. -/
def Populate (dec : Decoders) (net : Transport) (l : Listing) : PopulateResult :=
  let url := TrimSpace l.URL
  if url = "" then ⟨l, some .urlEmpty, []⟩
  else
    match net.NewRequest "GET" url with
    | .error e => ⟨l, some (.newRequest e), []⟩
    | .ok req =>
      let req := addBrowserHeaders req
      match net.Do req with
      | .error e => ⟨l, some (.transport e), [req]⟩
      | .ok res =>
        let doc := net.Parse res.Body
        if res.StatusCode ≠ StatusOK then
          ⟨l, some (.status StatusOK res.StatusCode), [req]⟩
        else
          match doc with
          | .error e => ⟨l, some (.parse e), [req]⟩
          | .ok d => ⟨walk dec d l, none, [req]⟩

/-! ## Specification vocabulary -/

mutual
/-- The nodes of a tree in pre-order document order: a node, then its children's
subtrees from first to last. -/
def preorder : Node → List Node
  | .mk ty data attr children => .mk ty data attr children :: preorderChildren children
/-- The nodes of a list of sibling subtrees in pre-order document order. -/
def preorderChildren : List Node → List Node
  | [] => []
  | c :: rest => preorder c ++ preorderChildren rest
end

/-- The nodes of a document below its root, in pre-order document order. -/
def descendants (doc : Node) : List Node :=
  preorderChildren doc.children

/-- A node that is allowed its children: a node with children is an element other
than `meta`. -/
def leafRule (n : Node) : Bool :=
  (n.Type_ == NodeType.ElementNode && n.Data != "meta") || n.children.isEmpty

/-- A document in which only element nodes have children and `meta` elements have
none: the shape of every tree `html.Parse` returns, where `meta` is a void element
and text, comment and doctype nodes are leaves. -/
def WellFormed (doc : Node) : Prop :=
  (descendants doc).all leafRule = true

/-- A `meta` element. -/
def isMeta (n : Node) : Bool :=
  n.Type_ == NodeType.ElementNode && n.Data == "meta"

/-- A `meta` element whose `name` attribute is exactly `description`. -/
def isDescriptionMeta (n : Node) : Bool :=
  isMeta n && getAttr n "name" == "description"

/-- A `script` element whose `type` attribute is exactly `application/ld+json`. -/
def isLdJsonScript (n : Node) : Bool :=
  n.Type_ == NodeType.ElementNode && n.Data == "script"
    && getAttr n "type" == "application/ld+json"

/-- The events of a list of sibling nodes: one for each text node among them whose
text `maybeParseEvent` accepts, each text decoded on its own, in sibling order. -/
def textEvents (dec : Decoders) (cs : List Node) : List Event :=
  (cs.filter (fun c => c.Type_ == NodeType.TextNode)).filterMap
    (fun c => maybeParseEvent dec c.Data)

/-- The events of one node: for a structured-data script, one event for each direct
text child that `maybeParseEvent` accepts, each child decoded on its own; none for
any other node. -/
def scriptEvents (dec : Decoders) (n : Node) : List Event :=
  if isLdJsonScript n then textEvents dec n.children else []

/-- What `f` does at a node apart from recursing: the metadata extractor on a `meta`
element, the structured-data extractor on a structured-data script, nothing elsewhere. -/
def dispatch (dec : Decoders) (l : Listing) (n : Node) : Listing :=
  if n.Type_ ≠ NodeType.ElementNode then l
  else if n.Data = "meta" then metaSwitch n l
  else if n.Data = "script" ∧ getAttr n "type" = "application/ld+json" then
    scriptLoop dec n.children l
  else l

/-- The instant a date string stands for: the decoded instant when the string
decodes, the zero instant otherwise. -/
def instantOrZero (dec : Decoders) (date : String) : Time :=
  match dec.iso8601ParseString date with
  | .ok t => t
  | .error _ => Time.zero

/-- The four recognized mappings of the metadata extractor, in the order of the
table of the specification. -/
inductive Mapping where
  | description
  | ogImage
  | ogAddress
  | canonical
deriving DecidableEq, Repr

/-- The selector of a mapping holds of a node: the selector attribute has exactly
the mapping's value. -/
def Mapping.selects : Mapping → Node → Bool
  | .description, n => getAttr n "name" == "description"
  | .ogImage, n => getAttr n "property" == "og:image"
  | .ogAddress, n => getAttr n "property" == "og:zillow_fb:address"
  | .canonical, n => getAttr n "name" == "canonical"

/-- The destination field of a mapping. -/
def Mapping.field : Mapping → Listing → String
  | .description, l => l.Description
  | .ogImage, l => l.PhotoUrl
  | .ogAddress, l => l.Address.Value
  | .canonical, l => l.CanonicalURL

/-- The position of a mapping among the cases of the `switch`. -/
def Mapping.rank : Mapping → Nat
  | .description => 0
  | .ogImage => 1
  | .ogAddress => 2
  | .canonical => 3

/-- The node reached from a node by a path of child indices. -/
def nodeAt : List Nat → Node → Option Node
  | [], n => some n
  | i :: path, n =>
    match n.children.get? i with
    | none => none
    | some c => nodeAt path c

/-- A list with the function applied to the element at an index. -/
def mapAt (g : Node → Node) : Nat → List Node → List Node
  | _, [] => []
  | 0, c :: rest => g c :: rest
  | i + 1, c :: rest => c :: mapAt g i rest

/-- The tree with one node removed: the child of index `i` of the node the path
leads to. -/
def removeChildAt : List Nat → Nat → Node → Node
  | [], i, .mk ty data attr children => .mk ty data attr (children.eraseIdx i)
  | j :: path, i, .mk ty data attr children =>
    .mk ty data attr (mapAt (removeChildAt path i) j children)

/-! ## Sample values -/

/-- A text node. -/
def textNode (text : String) : Node :=
  .mk .TextNode text [] []

/-- An element node. -/
def element (tag : String) (attr : List (String × String)) (children : List Node) : Node :=
  .mk .ElementNode tag (attr.map fun kv => ⟨"", kv.1, kv.2⟩) children

/-- A document node. -/
def document (children : List Node) : Node :=
  .mk .DocumentNode "" [] children

/-- A structured-data text of type `Event` with a start date that decodes and an
end date that does not. -/
def sampleEventText : String :=
  "\x7b\"@type\":\"Event\",\"name\":\"Open House\",\"startDate\":\"2021-05-01T10:00:00Z\",\"endDate\":\"soon\"\x7d"

/-- A structured-data text whose type differs from `Event` only in case. -/
def sampleOtherText : String :=
  "\x7b\"@type\":\"event\",\"name\":\"Open House\"\x7d"

/-- A text that is not valid JSON. -/
def sampleInvalidText : String :=
  "\x7b\"@type\":"

/-- Decoders that agree with `encoding/json` and `iso8601` on the sample texts
and reject every other text. -/
def sampleDecoders : Decoders where
  jsonValid := fun s => s == sampleEventText || s == sampleOtherText
  jsonUnmarshal := fun s =>
    if s = sampleEventText then .ok ⟨"Event", "2021-05-01T10:00:00Z", "soon", "Open House"⟩
    else if s = sampleOtherText then .ok ⟨"event", "", "", "Open House"⟩
    else .error "invalid character"
  iso8601ParseString := fun s =>
    if s = "2021-05-01T10:00:00Z" then .ok ⟨63755460000⟩ else .error "unexpected character"

/-- A transport that answers every request with the given response and parses
every body to the given document. -/
def sampleTransport (res : Response) (doc : Node) : Transport where
  NewRequest := fun method url => .ok ⟨method, url, []⟩
  Do := fun _ => .ok res
  Parse := fun _ => .ok doc

/-- The page of the concrete scenario of the specification, with a second
description after the script. -/
def samplePage : Node :=
  document [
    .mk .DoctypeNode "html" [] [],
    element "html" [] [
      element "head" [] [
        element "meta" [("name", "description"), ("content", "Nice house")] [],
        element "meta" [("property", "og:image"), ("content", "http://x/photo.jpg")] [],
        element "script" [("type", "application/ld+json")] [textNode sampleEventText],
        element "meta" [("name", "description"), ("content", "Nicer house")] []],
      element "body" [] [
        element "p" [] [textNode "hello"],
        element "script" [("type", "application/ld+json")]
          [textNode sampleOtherText, textNode sampleEventText]]]]

/-- The tree the parser returns for a page without content: `html`, `head` and
`body`, and nothing the extractors recognize. -/
def emptyPage : Node :=
  document [element "html" [] [element "head" [] [], element "body" [] []]]

/-- A `meta` element that carries a description and an image at once. -/
def doubleMeta : Node :=
  element "meta"
    [("name", "description"), ("property", "og:image"), ("content", "http://x/photo.jpg")] []

/-- A page with an invalid structured-data text between two valid ones, a
description before the script and an image after it. -/
def brokenScriptPage : Node :=
  document [
    element "html" [] [
      element "meta" [("name", "description"), ("content", "Nice house")] [],
      element "script" [("type", "application/ld+json")]
        [textNode sampleEventText, textNode sampleInvalidText, textNode sampleEventText],
      element "meta" [("property", "og:image"), ("content", "http://x/photo.jpg")] []]]

/-! ## The walker as a fold over the nodes it visits -/

theorem f_mk (dec : Decoders) (ty : NodeType) (data : String) (attr : List Attribute)
    (children : List Node) (l : Listing) :
    f dec (.mk ty data attr children) l =
      if ty ≠ NodeType.ElementNode then l
      else if data = "meta" then metaSwitch (.mk ty data attr children) l
      else fChildren dec children
        (if data = "script" ∧ getAttr (.mk ty data attr children) "type" = "application/ld+json"
          then scriptLoop dec children l else l) := by
  rw [f]

theorem fChildren_nil (dec : Decoders) (l : Listing) : fChildren dec [] l = l := by
  rw [fChildren]

theorem fChildren_cons (dec : Decoders) (c : Node) (rest : List Node) (l : Listing) :
    fChildren dec (c :: rest) l = fChildren dec rest (f dec c l) := by
  rw [fChildren]

theorem visits_mk (ty : NodeType) (data : String) (attr : List Attribute)
    (children : List Node) :
    visits (.mk ty data attr children) =
      if ty ≠ NodeType.ElementNode then [.mk ty data attr children]
      else if data = "meta" then [.mk ty data attr children]
      else .mk ty data attr children :: visitsChildren children := by
  rw [visits]

theorem visitsChildren_nil : visitsChildren [] = [] := by
  rw [visitsChildren]

theorem visitsChildren_cons (c : Node) (rest : List Node) :
    visitsChildren (c :: rest) = visits c ++ visitsChildren rest := by
  rw [visitsChildren]

theorem preorder_mk (ty : NodeType) (data : String) (attr : List Attribute)
    (children : List Node) :
    preorder (.mk ty data attr children) =
      .mk ty data attr children :: preorderChildren children := by
  rw [preorder]

theorem preorderChildren_nil : preorderChildren [] = [] := by
  rw [preorderChildren]

theorem preorderChildren_cons (c : Node) (rest : List Node) :
    preorderChildren (c :: rest) = preorder c ++ preorderChildren rest := by
  rw [preorderChildren]

mutual
/-- Calling `f` on a node applies `dispatch` to the nodes `f` is invoked on, in order. -/
theorem f_eq_foldl (dec : Decoders) :
    ∀ (n : Node) (l : Listing), f dec n l = (visits n).foldl (dispatch dec) l
  | .mk ty data attr children, l => by
    rw [f_mk, visits_mk]
    by_cases hty : ty = NodeType.ElementNode
    · by_cases hm : data = "meta"
      · simp [hty, hm, dispatch, Node.Type_, Node.Data]
      · simp only [hty, hm, ne_eq, not_true_eq_false, if_false, List.foldl_cons]
        rw [fChildren_eq_foldl dec children]
        simp [dispatch, Node.Type_, Node.Data, Node.children, hm]
    · simp [hty, dispatch, Node.Type_]
/-- The loop over siblings applies `dispatch` to the nodes `f` is invoked on, in order. -/
theorem fChildren_eq_foldl (dec : Decoders) :
    ∀ (cs : List Node) (l : Listing),
      fChildren dec cs l = (visitsChildren cs).foldl (dispatch dec) l
  | [], l => by rw [fChildren_nil, visitsChildren_nil]; rfl
  | c :: rest, l => by
    rw [fChildren_cons, visitsChildren_cons, List.foldl_append, f_eq_foldl dec c,
      fChildren_eq_foldl dec rest]
end

theorem leafRule_mk_children (ty : NodeType) (data : String) (attr : List Attribute)
    (children : List Node) (h : leafRule (.mk ty data attr children) = true)
    (hne : ¬ (ty = NodeType.ElementNode ∧ data ≠ "meta")) : children = [] := by
  simp only [leafRule, Node.Type_, Node.Data, Node.children, Bool.or_eq_true, Bool.and_eq_true,
    beq_iff_eq, bne_iff_ne, ne_eq, List.isEmpty_iff] at h
  rcases h with h | h
  · exact absurd h hne
  · exact h

mutual
/-- Where only elements other than `meta` have children, `f` is invoked on every
node of the subtree, in pre-order. -/
theorem visits_eq_preorder :
    ∀ (n : Node), (preorder n).all leafRule = true → visits n = preorder n
  | .mk ty data attr children, h => by
    rw [preorder_mk] at h
    rw [visits_mk, preorder_mk]
    simp only [List.all_cons, Bool.and_eq_true] at h
    by_cases hel : ty = NodeType.ElementNode ∧ data ≠ "meta"
    · rw [visitsChildren_eq_preorder children h.2]
      simp [hel.1, hel.2]
    · have hc := leafRule_mk_children ty data attr children h.1 hel
      subst hc
      rw [preorderChildren_nil, visitsChildren_nil]
      by_cases hty : ty = NodeType.ElementNode <;> simp [hty]
/-- The sibling-list form of `visits_eq_preorder`. -/
theorem visitsChildren_eq_preorder :
    ∀ (cs : List Node), (preorderChildren cs).all leafRule = true →
      visitsChildren cs = preorderChildren cs
  | [], _ => by rw [visitsChildren_nil, preorderChildren_nil]
  | c :: rest, h => by
    rw [preorderChildren_cons, List.all_append, Bool.and_eq_true] at h
    rw [visitsChildren_cons, preorderChildren_cons, visits_eq_preorder c h.1,
      visitsChildren_eq_preorder rest h.2]
end

/-! ## What one dispatch does to the record -/

/-- The events the loop over the children of a script appends. -/
theorem scriptLoop_eq (dec : Decoders) :
    ∀ (cs : List Node) (l : Listing),
      scriptLoop dec cs l = { l with OpenHouses := l.OpenHouses ++ textEvents dec cs }
  | [], l => by simp [scriptLoop, textEvents]
  | c :: rest, l => by
    rw [scriptLoop]
    by_cases hty : c.Type_ = NodeType.TextNode
    · cases hev : maybeParseEvent dec c.Data with
      | none => simp [hty, hev, scriptLoop_eq dec rest, textEvents]
      | some ev => simp [hty, hev, scriptLoop_eq dec rest, textEvents]
    · simp [hty, scriptLoop_eq dec rest, textEvents]

theorem metaSwitch_OpenHouses (n : Node) (l : Listing) :
    (metaSwitch n l).OpenHouses = l.OpenHouses := by
  unfold metaSwitch
  split_ifs <;> rfl

theorem dispatch_OpenHouses (dec : Decoders) (l : Listing) (n : Node) :
    (dispatch dec l n).OpenHouses = l.OpenHouses ++ scriptEvents dec n := by
  unfold dispatch scriptEvents isLdJsonScript
  by_cases hty : n.Type_ = NodeType.ElementNode
  · by_cases hm : n.Data = "meta"
    · simp [hty, hm, metaSwitch_OpenHouses]
    · by_cases hs : n.Data = "script" ∧ getAttr n "type" = "application/ld+json"
      · simp [hty, hm, hs, scriptLoop_eq]
      · have hs2 : ¬ (n.Data = "script" ∧ getAttr n "type" = "application/ld+json") := hs
        rw [not_and] at hs2
        by_cases hd : n.Data = "script"
        · simp [hty, hm, hs, hd, hs2 hd]
        · simp [hty, hm, hs, hd]
  · simp [hty]

theorem foldl_dispatch_OpenHouses (dec : Decoders) :
    ∀ (ns : List Node) (l : Listing),
      (ns.foldl (dispatch dec) l).OpenHouses = l.OpenHouses ++ ns.flatMap (scriptEvents dec)
  | [], l => by simp
  | n :: rest, l => by
    rw [List.foldl_cons, foldl_dispatch_OpenHouses dec rest, dispatch_OpenHouses,
      List.flatMap_cons, List.append_assoc]

theorem dispatch_Description (dec : Decoders) (l : Listing) (n : Node) :
    (dispatch dec l n).Description =
      if isDescriptionMeta n then getAttr n "content" else l.Description := by
  unfold dispatch isDescriptionMeta isMeta
  by_cases hty : n.Type_ = NodeType.ElementNode
  · by_cases hm : n.Data = "meta"
    · by_cases hd : getAttr n "name" = "description"
      · simp [hty, hm, hd, metaSwitch]
      · simp only [hty, hm, hd, metaSwitch, ne_eq, not_true_eq_false, if_false, if_true,
          beq_self_eq_true, Bool.and_true, beq_iff_eq, Bool.and_false, Bool.true_and]
        split_ifs <;> rfl
    · simp [hty, hm, scriptLoop_eq]
      split_ifs <;> rfl
  · simp [hty]

theorem foldl_dispatch_Description (dec : Decoders) :
    ∀ (ns : List Node) (l : Listing),
      (ns.foldl (dispatch dec) l).Description =
        match (ns.filter isDescriptionMeta).getLast? with
        | some m => getAttr m "content"
        | none => l.Description
  | [], l => by simp
  | n :: rest, l => by
    rw [List.foldl_cons, foldl_dispatch_Description dec rest, dispatch_Description]
    by_cases hn : isDescriptionMeta n = true
    · rw [List.filter_cons_of_pos hn, List.getLast?_cons]
      cases (List.filter isDescriptionMeta rest).getLast? <;> simp [hn]
    · rw [List.filter_cons_of_neg hn]
      cases (List.filter isDescriptionMeta rest).getLast? <;> simp [hn]

/-! ## The walk: description, visiting order, events -/

/-- C1: in a document where only element nodes have children and `meta` elements
have none, and which has a `meta` element named `description`, the walk leaves in
`Description` the `content` of the last such element in pre-order document order. -/
theorem description_of_last_meta (dec : Decoders) (doc : Node) (l : Listing) (m : Node)
    (hwf : WellFormed doc)
    (hlast : ((descendants doc).filter isDescriptionMeta).getLast? = some m) :
    (walk dec doc l).Description = getAttr m "content" := by
  unfold walk
  rw [fChildren_eq_foldl, visitsChildren_eq_preorder doc.children hwf,
    foldl_dispatch_Description]
  unfold descendants at hlast
  rw [hlast]

theorem description_of_last_meta_witness :
    (walk sampleDecoders samplePage (NewListing "u")).Description = "Nicer house" :=
  description_of_last_meta sampleDecoders samplePage (NewListing "u")
    (element "meta" [("name", "description"), ("content", "Nicer house")] [])
    (by unfold WellFormed; decide) rfl

/-- C2: on every document tree of the shape the parser returns (only element nodes
have children and `meta` elements have none), `f` is invoked on every node below
the root exactly once, in pre-order document order, and the record after the walk
is the result of dispatching every one of these nodes in that order, so every
`meta` element and every structured-data script is handed to its extractor. -/
theorem walk_visits_preorder (dec : Decoders) (doc : Node) (l : Listing)
    (hwf : WellFormed doc) :
    visitsDoc doc = descendants doc ∧
    walk dec doc l = (descendants doc).foldl (dispatch dec) l := by
  have hv : visitsChildren doc.children = preorderChildren doc.children :=
    visitsChildren_eq_preorder doc.children hwf
  refine ⟨hv, ?_⟩
  unfold walk descendants
  rw [fChildren_eq_foldl, hv]

theorem walk_visits_preorder_witness :
    visitsDoc samplePage = descendants samplePage ∧
    walk sampleDecoders samplePage (NewListing "u") =
      (descendants samplePage).foldl (dispatch sampleDecoders) (NewListing "u") :=
  walk_visits_preorder sampleDecoders samplePage (NewListing "u")
    (by unfold WellFormed; decide)

/-- C3, as stated, fails: on a `meta` element whose `name` is `description` and
whose `property` is `og:image`, only the description is written. -/
theorem image_not_written_after_description :
    Mapping.ogImage.selects doubleMeta = true ∧
    Mapping.ogImage.field (f sampleDecoders doubleMeta (NewListing "u")) ≠
      getAttr doubleMeta "content" := by
  decide

/-- C3, amended: on a `meta` element, for each of the four mappings whose selector
attribute has exactly its value while the selector of no mapping earlier in the
order description, og:image, og:zillow_fb:address, canonical does, the destination
field equals the `content` attribute right after the element is handled, and the
destination field of each of the other three mappings is as it was before. -/
theorem first_matching_mapping_written (dec : Decoders) (m : Mapping)
    (attr : List Attribute) (children : List Node) (l : Listing)
    (hsel : m.selects (.mk .ElementNode "meta" attr children) = true)
    (hfirst : ∀ m' : Mapping, m'.rank < m.rank →
      m'.selects (.mk .ElementNode "meta" attr children) = false) :
    m.field (f dec (.mk .ElementNode "meta" attr children) l) =
      getAttr (.mk .ElementNode "meta" attr children) "content" ∧
    ∀ m' : Mapping, m' ≠ m →
      m'.field (f dec (.mk .ElementNode "meta" attr children) l) = m'.field l := by
  rw [f_mk]
  simp only [ne_eq, not_true_eq_false, if_false, if_true]
  unfold metaSwitch
  cases m with
  | description =>
    simp only [Mapping.selects, beq_iff_eq] at hsel
    simp only [hsel, if_true]
    exact ⟨rfl, fun m' hne => by cases m' <;> first | rfl | exact absurd rfl hne⟩
  | ogImage =>
    have h0 := hfirst .description (by decide)
    simp only [Mapping.selects, beq_eq_false_iff_ne, ne_eq, beq_iff_eq] at hsel h0
    simp only [hsel, h0, if_true, if_false]
    exact ⟨rfl, fun m' hne => by cases m' <;> first | rfl | exact absurd rfl hne⟩
  | ogAddress =>
    have h0 := hfirst .description (by decide)
    have h1 := hfirst .ogImage (by decide)
    simp only [Mapping.selects, beq_eq_false_iff_ne, ne_eq, beq_iff_eq] at hsel h0 h1
    simp only [hsel, h0, h1, if_true, if_false]
    exact ⟨rfl, fun m' hne => by cases m' <;> first | rfl | exact absurd rfl hne⟩
  | canonical =>
    have h0 := hfirst .description (by decide)
    have h1 := hfirst .ogImage (by decide)
    have h2 := hfirst .ogAddress (by decide)
    simp only [Mapping.selects, beq_eq_false_iff_ne, ne_eq, beq_iff_eq] at hsel h0 h1 h2
    simp only [hsel, h0, h1, h2, if_true, if_false]
    exact ⟨rfl, fun m' hne => by cases m' <;> first | rfl | exact absurd rfl hne⟩

theorem first_matching_mapping_written_witness :
    Mapping.ogImage.field
        (f sampleDecoders
          (.mk .ElementNode "meta"
            [⟨"", "property", "og:image"⟩, ⟨"", "name", "canonical"⟩,
              ⟨"", "content", "http://x/photo.jpg"⟩] [])
          (NewListing "u")) =
      getAttr
        (.mk .ElementNode "meta"
          [⟨"", "property", "og:image"⟩, ⟨"", "name", "canonical"⟩,
            ⟨"", "content", "http://x/photo.jpg"⟩] [])
        "content" ∧
    ∀ m' : Mapping, m' ≠ Mapping.ogImage →
      m'.field
        (f sampleDecoders
          (.mk .ElementNode "meta"
            [⟨"", "property", "og:image"⟩, ⟨"", "name", "canonical"⟩,
              ⟨"", "content", "http://x/photo.jpg"⟩] [])
          (NewListing "u")) = m'.field (NewListing "u") :=
  first_matching_mapping_written sampleDecoders .ogImage
    [⟨"", "property", "og:image"⟩, ⟨"", "name", "canonical"⟩,
      ⟨"", "content", "http://x/photo.jpg"⟩] [] (NewListing "u")
    (by decide)
    (fun m' h => by cases m' <;> first | decide | exact absurd h (by decide))

/-- C4: on every document tree of the shape the parser returns (only element nodes
have children and `meta` elements have none), for every initial record, `OpenHouses` after the walk is the
initial `OpenHouses` followed by, in pre-order document order, one event for each
direct text child of each structured-data script for which `maybeParseEvent` returns
an event; each text child is decoded on its own and equal events are all kept. -/
theorem open_houses_of_walk (dec : Decoders) (doc : Node) (l : Listing)
    (hwf : WellFormed doc) :
    (walk dec doc l).OpenHouses =
      l.OpenHouses ++ (descendants doc).flatMap (scriptEvents dec) := by
  unfold walk descendants
  rw [fChildren_eq_foldl, visitsChildren_eq_preorder doc.children hwf,
    foldl_dispatch_OpenHouses]

theorem open_houses_of_walk_witness :
    (walk sampleDecoders samplePage (NewListing "u")).OpenHouses =
      (NewListing "u").OpenHouses ++
        (descendants samplePage).flatMap (scriptEvents sampleDecoders) ∧
    (descendants samplePage).flatMap (scriptEvents sampleDecoders) =
      [⟨⟨63755460000⟩, Time.zero, "Open House"⟩, ⟨⟨63755460000⟩, Time.zero, "Open House"⟩] :=
  ⟨open_houses_of_walk sampleDecoders samplePage (NewListing "u")
    (by unfold WellFormed; decide), by decide⟩

/-! ## `maybeParseEvent` -/

/-- C5: a text that decodes to an object of type exactly `Event` with name `N`,
start-date string `S` and end-date string `E` yields an event named `N`; its
`StartDate` is the decoded instant of `S` when `S` decodes and the zero instant
otherwise, and independently so for `EndDate` and `E`; the event is never
discarded for a date. -/
theorem maybeParseEvent_of_event (dec : Decoders) (text N S E : String)
    (hvalid : dec.jsonValid text = true)
    (hdec : dec.jsonUnmarshal text = .ok ⟨"Event", S, E, N⟩) :
    maybeParseEvent dec text =
      some ⟨instantOrZero dec S, instantOrZero dec E, N⟩ := by
  unfold maybeParseEvent instantOrZero
  simp only [hvalid, hdec, Bool.true_eq_false, if_false, ne_eq, not_true_eq_false]
  cases dec.iso8601ParseString S <;> cases dec.iso8601ParseString E <;> rfl

theorem maybeParseEvent_of_event_witness :
    maybeParseEvent sampleDecoders sampleEventText =
      some ⟨instantOrZero sampleDecoders "2021-05-01T10:00:00Z",
        instantOrZero sampleDecoders "soon", "Open House"⟩ ∧
    instantOrZero sampleDecoders "2021-05-01T10:00:00Z" = ⟨63755460000⟩ ∧
    instantOrZero sampleDecoders "soon" = Time.zero :=
  ⟨maybeParseEvent_of_event sampleDecoders sampleEventText "Open House"
    "2021-05-01T10:00:00Z" "soon" (by decide) rfl, by decide, by decide⟩

theorem maybeParseEvent_none_of_type (dec : Decoders) (text : String) (data : ZillowObject)
    (hdec : dec.jsonUnmarshal text = .ok data) (hty : data.Type_ ≠ "Event") :
    maybeParseEvent dec text = none := by
  unfold maybeParseEvent
  cases hv : dec.jsonValid text <;> simp [hdec, hty]

theorem f_of_not_element (dec : Decoders) (n : Node) (l : Listing)
    (h : n.Type_ ≠ NodeType.ElementNode) : f dec n l = l := by
  cases n with
  | mk ty data attr children =>
    rw [f_mk]
    simp only [Node.Type_] at h
    simp [h]

/-- C6: a structured-data text whose decoded type is not exactly `Event` yields no
event, and processing a script block made of it leaves `OpenHouses`, contents and
length, as it was. -/
theorem no_event_of_other_type (dec : Decoders) (text : String) (data : ZillowObject)
    (attr : List Attribute) (l : Listing)
    (hdec : dec.jsonUnmarshal text = .ok data) (hty : data.Type_ ≠ "Event") :
    maybeParseEvent dec text = none ∧
    scriptLoop dec [textNode text] l = l ∧
    (f dec (.mk .ElementNode "script" attr [textNode text]) l).OpenHouses = l.OpenHouses ∧
    (f dec (.mk .ElementNode "script" attr [textNode text]) l).OpenHouses.length =
      l.OpenHouses.length := by
  have hnone := maybeParseEvent_none_of_type dec text data hdec hty
  have hloop : scriptLoop dec [textNode text] l = l := by
    simp [scriptLoop, textNode, Node.Type_, Node.Data, hnone]
  have hf : f dec (.mk .ElementNode "script" attr [textNode text]) l = l := by
    rw [f_mk, fChildren_cons, fChildren_nil, hloop]
    have ht : ∀ l0, f dec (textNode text) l0 = l0 := fun l0 =>
      f_of_not_element dec (textNode text) l0 (by simp [textNode, Node.Type_])
    simp [ht]
  exact ⟨hnone, hloop, by rw [hf], by rw [hf]⟩

theorem no_event_of_other_type_witness :
    maybeParseEvent sampleDecoders sampleOtherText = none ∧
    scriptLoop sampleDecoders [textNode sampleOtherText] (NewListing "u") = NewListing "u" ∧
    (f sampleDecoders
        (.mk .ElementNode "script" [⟨"", "type", "application/ld+json"⟩]
          [textNode sampleOtherText])
        (NewListing "u")).OpenHouses = (NewListing "u").OpenHouses ∧
    (f sampleDecoders
        (.mk .ElementNode "script" [⟨"", "type", "application/ld+json"⟩]
          [textNode sampleOtherText])
        (NewListing "u")).OpenHouses.length = (NewListing "u").OpenHouses.length :=
  no_event_of_other_type sampleDecoders sampleOtherText ⟨"event", "", "", "Open House"⟩
    [⟨"", "type", "application/ld+json"⟩] (NewListing "u") rfl (by decide)

/-! ## Removing a text that yields no event -/

theorem maybeParseEvent_none_of_invalid (dec : Decoders) (text : String)
    (h : dec.jsonValid text = false) : maybeParseEvent dec text = none := by
  unfold maybeParseEvent
  simp [h]

theorem fChildren_eraseIdx (dec : Decoders) :
    ∀ (cs : List Node) (i : Nat) (t : Node) (l : Listing),
      cs.get? i = some t → t.Type_ ≠ NodeType.ElementNode →
      fChildren dec (cs.eraseIdx i) l = fChildren dec cs l
  | [], _, _, _, h, _ => by simp at h
  | c :: rest, 0, t, l, h, ht => by
    simp only [List.get?_cons_zero, Option.some.injEq] at h
    subst h
    rw [List.eraseIdx_cons_zero, fChildren_cons, f_of_not_element dec c l ht]
  | c :: rest, i + 1, t, l, h, ht => by
    simp only [List.get?_cons_succ] at h
    rw [List.eraseIdx_cons_succ, fChildren_cons, fChildren_cons,
      fChildren_eraseIdx dec rest i t (f dec c l) h ht]

theorem textEvents_cons (dec : Decoders) (c : Node) (rest : List Node) :
    textEvents dec (c :: rest) =
      (if c.Type_ = NodeType.TextNode then (maybeParseEvent dec c.Data).toList else []) ++
        textEvents dec rest := by
  unfold textEvents
  by_cases h : c.Type_ = NodeType.TextNode
  · cases hev : maybeParseEvent dec c.Data <;> simp [h, hev]
  · simp [h]

theorem textEvents_eraseIdx (dec : Decoders) :
    ∀ (cs : List Node) (i : Nat) (t : Node),
      cs.get? i = some t → maybeParseEvent dec t.Data = none →
      textEvents dec (cs.eraseIdx i) = textEvents dec cs
  | [], _, _, h, _ => by simp at h
  | c :: rest, 0, t, h, ht => by
    simp only [List.get?_cons_zero, Option.some.injEq] at h
    subst h
    rw [List.eraseIdx_cons_zero, textEvents_cons, ht]
    simp
  | c :: rest, i + 1, t, h, ht => by
    simp only [List.get?_cons_succ] at h
    rw [List.eraseIdx_cons_succ, textEvents_cons, textEvents_cons,
      textEvents_eraseIdx dec rest i t h ht]

theorem fChildren_mapAt (dec : Decoders) (g : Node → Node) :
    ∀ (cs : List Node) (j : Nat) (l : Listing),
      (∀ c, cs.get? j = some c → ∀ l0, f dec (g c) l0 = f dec c l0) →
      fChildren dec (mapAt g j cs) l = fChildren dec cs l
  | [], _, _, _ => by simp [mapAt]
  | c :: rest, 0, l, h => by
    rw [mapAt, fChildren_cons, fChildren_cons, h c (by simp)]
  | c :: rest, j + 1, l, h => by
    rw [mapAt, fChildren_cons, fChildren_cons,
      fChildren_mapAt dec g rest j (f dec c l) (fun c0 hc0 => h c0 (by simpa using hc0))]

theorem textEvents_mapAt (dec : Decoders) (g : Node → Node) :
    ∀ (cs : List Node) (j : Nat),
      (∀ c, cs.get? j = some c → (g c).Type_ = c.Type_ ∧ (g c).Data = c.Data) →
      textEvents dec (mapAt g j cs) = textEvents dec cs
  | [], _, _ => by simp [mapAt]
  | c :: rest, 0, h => by
    have hc := h c (by simp)
    rw [mapAt, textEvents_cons, textEvents_cons, hc.1, hc.2]
  | c :: rest, j + 1, h => by
    rw [mapAt, textEvents_cons, textEvents_cons,
      textEvents_mapAt dec g rest j (fun c0 hc0 => h c0 (by simpa using hc0))]

theorem removeChildAt_head (path : List Nat) (i : Nat) (n : Node) :
    (removeChildAt path i n).Type_ = n.Type_ ∧ (removeChildAt path i n).Data = n.Data := by
  cases n with
  | mk ty data attr children =>
    cases path <;> simp [removeChildAt, Node.Type_, Node.Data]

/-- A node whose children were replaced behaves under `f` as before when the
events of its text children and the effect of `f` on its children are as before. -/
theorem f_congr_children (dec : Decoders) (ty : NodeType) (data : String)
    (attr : List Attribute) (cs cs' : List Node) (l : Listing)
    (hev : textEvents dec cs' = textEvents dec cs)
    (hf : ∀ l0, fChildren dec cs' l0 = fChildren dec cs l0) :
    f dec (.mk ty data attr cs') l = f dec (.mk ty data attr cs) l := by
  rw [f_mk, f_mk, scriptLoop_eq, scriptLoop_eq, hev, hf]
  rfl

theorem f_removeChildAt (dec : Decoders) (i : Nat) (s t : Node)
    (ht : s.children.get? i = some t) (hty : t.Type_ = NodeType.TextNode)
    (hnone : maybeParseEvent dec t.Data = none) :
    ∀ (path : List Nat) (n : Node), nodeAt path n = some s →
      (∀ l, f dec (removeChildAt path i n) l = f dec n l) ∧
      (∀ l, fChildren dec (removeChildAt path i n).children l = fChildren dec n.children l) ∧
      textEvents dec (removeChildAt path i n).children = textEvents dec n.children
  | [], .mk ty data attr children, h => by
    simp only [nodeAt, Option.some.injEq] at h
    subst h
    simp only [Node.children] at ht
    have hne : t.Type_ ≠ NodeType.ElementNode := by rw [hty]; decide
    have hev := textEvents_eraseIdx dec children i t ht hnone
    have hf := fun l0 => fChildren_eraseIdx dec children i t l0 ht hne
    exact ⟨fun l => by rw [removeChildAt]; exact f_congr_children dec _ _ _ _ _ l hev hf,
      fun l => by rw [removeChildAt]; exact hf l, by rw [removeChildAt]; exact hev⟩
  | j :: path, .mk ty data attr children, h => by
    simp only [nodeAt, Node.children] at h
    have hf : ∀ l0, fChildren dec (mapAt (removeChildAt path i) j children) l0 =
        fChildren dec children l0 := fun l0 =>
      fChildren_mapAt dec (removeChildAt path i) children j l0 (fun c hc l1 => by
        rw [hc] at h
        exact (f_removeChildAt dec i s t ht hty hnone path c h).1 l1)
    have hev : textEvents dec (mapAt (removeChildAt path i) j children) =
        textEvents dec children :=
      textEvents_mapAt dec (removeChildAt path i) children j
        (fun c _ => removeChildAt_head path i c)
    exact ⟨fun l => by rw [removeChildAt]; exact f_congr_children dec _ _ _ _ _ l hev hf,
      fun l => by rw [removeChildAt]; exact hf l, by rw [removeChildAt]; exact hev⟩

/-- C7: when a structured-data script anywhere in a document has a text child that is
not valid JSON, that text yields no event and the walk produces the record it
produces on the same tree with that text child removed. -/
theorem walk_ignores_invalid_text (dec : Decoders) (doc : Node) (l : Listing)
    (path : List Nat) (i : Nat) (s t : Node)
    (hs : nodeAt path doc = some s) (_hscript : isLdJsonScript s = true)
    (ht : s.children.get? i = some t) (htext : t.Type_ = NodeType.TextNode)
    (hinvalid : dec.jsonValid t.Data = false) :
    maybeParseEvent dec t.Data = none ∧
    walk dec doc l = walk dec (removeChildAt path i doc) l := by
  have hnone := maybeParseEvent_none_of_invalid dec t.Data hinvalid
  refine ⟨hnone, ?_⟩
  unfold walk
  exact ((f_removeChildAt dec i s t ht htext hnone path doc hs).2.1 l).symm

theorem walk_ignores_invalid_text_witness :
    maybeParseEvent sampleDecoders (textNode sampleInvalidText).Data = none ∧
    walk sampleDecoders brokenScriptPage (NewListing "u") =
      walk sampleDecoders (removeChildAt [0, 1] 1 brokenScriptPage) (NewListing "u") :=
  walk_ignores_invalid_text sampleDecoders brokenScriptPage (NewListing "u") [0, 1] 1
    (element "script" [("type", "application/ld+json")]
      [textNode sampleEventText, textNode sampleInvalidText, textNode sampleEventText])
    (textNode sampleInvalidText) rfl (by decide) rfl (by decide) (by decide)

/-! ## `Populate` -/

theorem TrimSpace_of_blank (s : String) (h : ∀ c ∈ s.data, isSpace c = true) :
    TrimSpace s = "" := by
  unfold TrimSpace
  have h0 : s.data.dropWhile isSpace = [] := List.dropWhile_eq_nil_iff.mpr h
  rw [h0]
  rfl

/-- C8: for a non-blank URL whose request is answered with a status code outside
200..299, whatever the body, `Populate` on a freshly constructed `Listing` returns
an error carrying that status code and extracts nothing: the record is the freshly
constructed one, all its fields empty. -/
theorem populate_rejects_non_2xx (dec : Decoders) (net : Transport) (url : String)
    (req : Request) (res : Response)
    (hurl : TrimSpace url ≠ "")
    (hreq : net.NewRequest "GET" (TrimSpace url) = .ok req)
    (hdo : net.Do (addBrowserHeaders req) = .ok res)
    (hstatus : ¬ (200 ≤ res.StatusCode ∧ res.StatusCode ≤ 299)) :
    (Populate dec net (NewListing url)).err = some (.status 200 res.StatusCode) ∧
    (Populate dec net (NewListing url)).listing = NewListing url ∧
    (Populate dec net (NewListing url)).listing.Description = "" ∧
    (Populate dec net (NewListing url)).listing.PhotoUrl = "" ∧
    (Populate dec net (NewListing url)).listing.CanonicalURL = "" ∧
    (Populate dec net (NewListing url)).listing.Address = ⟨"", "", "", "", ""⟩ ∧
    (Populate dec net (NewListing url)).listing.OpenHouses = [] := by
  have hne : res.StatusCode ≠ StatusOK := by
    intro h
    apply hstatus
    rw [h]
    decide
  have hurl0 : TrimSpace (NewListing url).URL ≠ "" := hurl
  have hreq0 : net.NewRequest "GET" (TrimSpace (NewListing url).URL) = .ok req := hreq
  have hp : Populate dec net (NewListing url) =
      ⟨NewListing url, some (.status StatusOK res.StatusCode), [addBrowserHeaders req]⟩ := by
    unfold Populate
    simp only [hurl0, hreq0, hdo, hne, if_false, ne_eq, not_false_eq_true, if_true]
  rw [hp]
  exact ⟨rfl, rfl, rfl, rfl, rfl, rfl, rfl⟩

theorem populate_rejects_non_2xx_witness :
    (Populate sampleDecoders (sampleTransport ⟨404, "body"⟩ samplePage)
      (NewListing " http://x/ ")).err = some (.status 200 404) ∧
    (Populate sampleDecoders (sampleTransport ⟨404, "body"⟩ samplePage)
      (NewListing " http://x/ ")).listing = NewListing " http://x/ " ∧
    (Populate sampleDecoders (sampleTransport ⟨404, "body"⟩ samplePage)
      (NewListing " http://x/ ")).listing.Description = "" ∧
    (Populate sampleDecoders (sampleTransport ⟨404, "body"⟩ samplePage)
      (NewListing " http://x/ ")).listing.PhotoUrl = "" ∧
    (Populate sampleDecoders (sampleTransport ⟨404, "body"⟩ samplePage)
      (NewListing " http://x/ ")).listing.CanonicalURL = "" ∧
    (Populate sampleDecoders (sampleTransport ⟨404, "body"⟩ samplePage)
      (NewListing " http://x/ ")).listing.Address = ⟨"", "", "", "", ""⟩ ∧
    (Populate sampleDecoders (sampleTransport ⟨404, "body"⟩ samplePage)
      (NewListing " http://x/ ")).listing.OpenHouses = [] :=
  populate_rejects_non_2xx sampleDecoders (sampleTransport ⟨404, "body"⟩ samplePage)
    " http://x/ " ⟨"GET", "http://x/", []⟩ ⟨404, "body"⟩ (by decide) rfl rfl (by decide)

/-- C9, as stated, fails: a response with status 203, a code in 200..299, and a
body the parser accepts makes `Populate` return the status error without running
the walk. -/
theorem populate_rejects_203 :
    (Populate sampleDecoders (sampleTransport ⟨203, "body"⟩ samplePage)
      (NewListing "http://x/")).err = some (.status 200 203) ∧
    (Populate sampleDecoders (sampleTransport ⟨203, "body"⟩ samplePage)
      (NewListing "http://x/")).listing = NewListing "http://x/" ∧
    walk sampleDecoders samplePage (NewListing "http://x/") ≠ NewListing "http://x/" := by
  decide

/-- C9, amended: for a non-blank URL whose request succeeds at the transport level,
`Populate` reports the status error exactly when the status code is not 200: for
every status code other than 200 it returns the error carrying that code and leaves
the record as it was; for status code 200 and a body the tree parser accepts it runs
the walk over the parsed document and returns no error, whatever the walk extracts;
for status code 200 and a body the parser refuses it returns the parser's error. -/
theorem populate_accepts_200 (dec : Decoders) (net : Transport) (l : Listing)
    (req : Request) (res : Response)
    (hurl : TrimSpace l.URL ≠ "")
    (hreq : net.NewRequest "GET" (TrimSpace l.URL) = .ok req)
    (hdo : net.Do (addBrowserHeaders req) = .ok res) :
    (res.StatusCode ≠ 200 →
      (Populate dec net l).err = some (.status 200 res.StatusCode) ∧
      (Populate dec net l).listing = l) ∧
    (res.StatusCode = 200 → ∀ doc : Node, net.Parse res.Body = .ok doc →
      (Populate dec net l).err = none ∧
      (Populate dec net l).listing = walk dec doc l) ∧
    (res.StatusCode = 200 → ∀ e : String, net.Parse res.Body = .error e →
      (Populate dec net l).err = some (.parse e) ∧
      (Populate dec net l).listing = l) := by
  refine ⟨fun hstatus => ?_, fun hstatus doc hparse => ?_, fun hstatus e hparse => ?_⟩
  · have hst : res.StatusCode ≠ StatusOK := hstatus
    have hp : Populate dec net l =
        ⟨l, some (.status StatusOK res.StatusCode), [addBrowserHeaders req]⟩ := by
      unfold Populate
      simp only [hurl, hreq, hdo, hst, if_false, ne_eq, not_false_eq_true, if_true]
    rw [hp]
    exact ⟨rfl, rfl⟩
  · have hst : res.StatusCode = StatusOK := hstatus
    have hp : Populate dec net l = ⟨walk dec doc l, none, [addBrowserHeaders req]⟩ := by
      unfold Populate
      simp only [hurl, hreq, hdo, hst, hparse, if_false, ne_eq, not_true_eq_false]
    rw [hp]
    exact ⟨rfl, rfl⟩
  · have hst : res.StatusCode = StatusOK := hstatus
    have hp : Populate dec net l = ⟨l, some (.parse e), [addBrowserHeaders req]⟩ := by
      unfold Populate
      simp only [hurl, hreq, hdo, hst, hparse, if_false, ne_eq, not_true_eq_false]
    rw [hp]
    exact ⟨rfl, rfl⟩

theorem populate_accepts_200_witness :
    ((Populate sampleDecoders (sampleTransport ⟨200, "body"⟩ samplePage)
        (NewListing "http://x/")).err = none ∧
      (Populate sampleDecoders (sampleTransport ⟨200, "body"⟩ samplePage)
        (NewListing "http://x/")).listing =
        walk sampleDecoders samplePage (NewListing "http://x/")) ∧
    walk sampleDecoders samplePage (NewListing "http://x/") =
      { NewListing "http://x/" with
        Description := "Nicer house"
        PhotoUrl := "http://x/photo.jpg"
        OpenHouses :=
          [⟨⟨63755460000⟩, Time.zero, "Open House"⟩, ⟨⟨63755460000⟩, Time.zero, "Open House"⟩] } ∧
    ((Populate sampleDecoders (sampleTransport ⟨200, "body"⟩ emptyPage)
        (NewListing "http://x/")).err = none ∧
      (Populate sampleDecoders (sampleTransport ⟨200, "body"⟩ emptyPage)
        (NewListing "http://x/")).listing =
        walk sampleDecoders emptyPage (NewListing "http://x/")) ∧
    walk sampleDecoders emptyPage (NewListing "http://x/") = NewListing "http://x/" ∧
    ((Populate sampleDecoders (sampleTransport ⟨201, "body"⟩ samplePage)
        (NewListing "http://x/")).err = some (.status 200 201) ∧
      (Populate sampleDecoders (sampleTransport ⟨201, "body"⟩ samplePage)
        (NewListing "http://x/")).listing = NewListing "http://x/") :=
  ⟨(populate_accepts_200 sampleDecoders (sampleTransport ⟨200, "body"⟩ samplePage)
      (NewListing "http://x/") ⟨"GET", "http://x/", []⟩ ⟨200, "body"⟩
      (by decide) rfl rfl).2.1 rfl samplePage rfl,
    by decide,
    (populate_accepts_200 sampleDecoders (sampleTransport ⟨200, "body"⟩ emptyPage)
      (NewListing "http://x/") ⟨"GET", "http://x/", []⟩ ⟨200, "body"⟩
      (by decide) rfl rfl).2.1 rfl emptyPage rfl,
    by decide,
    (populate_accepts_200 sampleDecoders (sampleTransport ⟨201, "body"⟩ samplePage)
      (NewListing "http://x/") ⟨"GET", "http://x/", []⟩ ⟨201, "body"⟩
      (by decide) rfl rfl).1 (by decide)⟩

/-- C10: for a `Listing` whose URL is empty or made of white space only, `Populate`
returns an error, hands no request to the transport, and leaves the record as it was. -/
theorem populate_blank_url (dec : Decoders) (net : Transport) (l : Listing)
    (hblank : ∀ c ∈ l.URL.data, isSpace c = true) :
    (Populate dec net l).err = some .urlEmpty ∧
    (Populate dec net l).sent = [] ∧
    (Populate dec net l).listing = l := by
  have hp : Populate dec net l = ⟨l, some .urlEmpty, []⟩ := by
    unfold Populate
    simp only [TrimSpace_of_blank l.URL hblank, if_true]
  rw [hp]
  exact ⟨rfl, rfl, rfl⟩

theorem populate_blank_url_witness :
    (Populate sampleDecoders (sampleTransport ⟨200, "body"⟩ samplePage)
      (NewListing " \t\n ")).err = some .urlEmpty ∧
    (Populate sampleDecoders (sampleTransport ⟨200, "body"⟩ samplePage)
      (NewListing " \t\n ")).sent = [] ∧
    (Populate sampleDecoders (sampleTransport ⟨200, "body"⟩ samplePage)
      (NewListing " \t\n ")).listing = NewListing " \t\n " :=
  populate_blank_url sampleDecoders (sampleTransport ⟨200, "body"⟩ samplePage)
    (NewListing " \t\n ") (by decide)

end Zahodi
